import Mathlib

/-!
Verification of the core of the Dorea PDF backend against its specification.

The definitions below are shallow embeddings of the Python source:
`knowledge_manager.py` (text chunker, segment filtering, embedding job
tracker, background embedding loop, cancellation, consistency checker,
similarity search) and `routes/file_routes.py` (upload/segmentation route,
retry route).  Texts are modelled as `List Char` (Python strings with
integer slicing), database rows as Lean structures, statuses as the literal
status strings the source stores.
-/

namespace Dorea

/-! ## Text chunker (`KnowledgeManager._chunk_text`, knowledge_manager.py 534-558) -/

/-- Index of the last occurrence of the space character `' '` in a list of
characters, `none` when there is none.  Models Python `chunk.rfind(' ')`,
which returns the largest such index or `-1`. -/
def rfindSpace : List Char → Option Nat
  | [] => none
  | c :: cs =>
    match rfindSpace cs with
    | some i => some (i + 1)
    | none => if c = ' ' then some 0 else none

/-- The cut position selected for the window that starts at `start`
(knowledge_manager.py 544-553): the tentative end is `start + max_chars`;
when the last space of the window sits past 80 percent of the window
(`last_space > max_chars * 0.8` in the source) the end is moved back to that
space.  The float comparison is modelled exactly as `5 * ls > 4 * maxChars`:
for an integer `ls` and any window size below 2^50 the double computation
`max_chars * 0.8` compares to `ls` exactly as the rational `4 * max_chars / 5`
does. -/
def cutEnd (text : List Char) (maxChars start : Nat) : Nat :=
  match rfindSpace ((text.drop start).take maxChars) with
  | some ls => if 5 * ls > 4 * maxChars then start + ls else start + maxChars
  | none => start + maxChars

/-- The `while start < len(text)` loop of `_chunk_text`, with explicit fuel:
each iteration either emits the final chunk `text[start:]` (when
`start + max_chars >= len(text)`) or emits `text[start:end]` for the cut
position `end = cutEnd` and continues from `start = end - overlap`.
`chunkLoop_fuel` below shows fuel `text.length` is enough for any
`maxChars ≥ 1`, which is exactly the termination argument of the source. -/
def chunkLoop (text : List Char) (maxChars overlap : Nat) : Nat → Nat → List (List Char)
  | 0, _ => []
  | fuel + 1, start =>
    if start < text.length then
      if text.length ≤ start + maxChars then
        [text.drop start]
      else
        (text.drop start).take (cutEnd text maxChars start - start) ::
          chunkLoop text maxChars overlap fuel (cutEnd text maxChars start - overlap)
    else []

/-- `_chunk_text(text, max_chars)`: texts that fit the budget are returned as
a singleton; longer texts go through the sliding window with
`overlap = int(max_chars * 0.1)`, modelled as `maxChars / 10` (exact for
every window size below 10^14, by the same float analysis as in `cutEnd`). -/
def chunkText (text : List Char) (maxChars : Nat) : List (List Char) :=
  if text.length ≤ maxChars then [text]
  else chunkLoop text maxChars (maxChars / 10) text.length 0

/-- Concatenation with the overlap removed: keep the first chunk whole and
drop the first `ov` characters of every later chunk. -/
def joinOverlap (chunks : List (List Char)) (ov : Nat) : List Char :=
  match chunks with
  | [] => []
  | c :: cs => c ++ (cs.map (List.drop ov)).flatten

theorem rfindSpace_lt_length : ∀ {l : List Char} {i : Nat}, rfindSpace l = some i → i < l.length := by
  intro l
  induction l with
  | nil => intro i h; simp [rfindSpace] at h
  | cons c cs ih =>
    intro i h
    simp only [rfindSpace] at h
    cases hr : rfindSpace cs with
    | some k =>
      rw [hr] at h
      have hk := ih hr
      simp only [Option.some.injEq] at h
      simp [← h, List.length_cons]
      omega
    | none =>
      rw [hr] at h
      by_cases hc : c = ' '
      · simp [hc] at h
        simp [← h]
      · simp [hc] at h

theorem cutEnd_le (text : List Char) (m start : Nat) :
    cutEnd text m start ≤ start + m := by
  unfold cutEnd
  cases hr : rfindSpace ((text.drop start).take m) with
  | some ls =>
    simp only [hr]
    have hls := rfindSpace_lt_length hr
    rw [List.length_take] at hls
    split <;> omega
  | none => simp only [hr]; omega

theorem cutEnd_gt (text : List Char) (m start : Nat) (hm : 1 ≤ m) :
    start + m / 10 < cutEnd text m start := by
  unfold cutEnd
  cases hr : rfindSpace ((text.drop start).take m) with
  | some ls =>
    simp only [hr]
    split <;> omega
  | none => simp only [hr]; omega

theorem chunkLoop_length_le (text : List Char) (m ov : Nat) :
    ∀ fuel start, ∀ c ∈ chunkLoop text m ov fuel start, c.length ≤ m := by
  intro fuel
  induction fuel with
  | zero => intro start c hc; simp [chunkLoop] at hc
  | succ fuel ih =>
    intro start c hc
    simp only [chunkLoop] at hc
    by_cases hs : start < text.length
    · rw [if_pos hs] at hc
      by_cases hend : text.length ≤ start + m
      · rw [if_pos hend] at hc
        simp only [List.mem_singleton] at hc
        subst hc
        simp only [List.length_drop]
        omega
      · rw [if_neg hend] at hc
        rcases List.mem_cons.mp hc with h | h
        · subst h
          have := cutEnd_le text m start
          simp only [List.length_take, List.length_drop]
          omega
        · exact ih _ c h
    · rw [if_neg hs] at hc
      simp at hc

/-- C6 — For every text and budget, `_chunk_text` returns the singleton
`[text]` when the text fits the budget, and every returned chunk has length
at most `max_chars` (knowledge_manager.py 534-558). -/
theorem chunk_length_bound (text : List Char) (m : Nat) :
    (text.length ≤ m → chunkText text m = [text]) ∧
    ∀ c ∈ chunkText text m, c.length ≤ m := by
  constructor
  · intro h
    simp [chunkText, h]
  · intro c hc
    unfold chunkText at hc
    split at hc
    · next h =>
      simp only [List.mem_singleton] at hc
      subst hc
      exact h
    · exact chunkLoop_length_le text m (m / 10) text.length 0 c hc

/-- Witness for C6 at concrete inputs: a text that fits is returned whole,
and the first chunk of a split text respects the budget. -/
theorem chunk_length_bound_witness :
    chunkText ("hi").toList 10 = [("hi").toList] ∧ (("abc").toList).length ≤ 3 :=
  ⟨(chunk_length_bound ("hi").toList 10).1 (by decide),
   (chunk_length_bound ("abcdefgh").toList 3).2 (("abc").toList) (by decide)⟩

theorem chunkLoop_join (text : List Char) (m : Nat) (hm : 1 ≤ m) :
    ∀ fuel start, start + m / 10 < text.length → text.length - start ≤ fuel →
      ∃ c cs, chunkLoop text m (m / 10) fuel start = c :: cs ∧ m / 10 ≤ c.length ∧
        c ++ (cs.map (List.drop (m / 10))).flatten = text.drop start := by
  intro fuel
  induction fuel with
  | zero => intro start h1 h2; omega
  | succ fuel ih =>
    intro start h1 h2
    have hstart : start < text.length := by omega
    by_cases hend : text.length ≤ start + m
    · refine ⟨text.drop start, [], ?_, ?_, ?_⟩
      · simp [chunkLoop, hstart, hend]
      · simp only [List.length_drop]; omega
      · simp
    · push_neg at hend
      have hup := cutEnd_le text m start
      have hlow := cutEnd_gt text m start hm
      set e := cutEnd text m start with he
      obtain ⟨c', cs', hrec, hlen', hjoin'⟩ :=
        ih (e - m / 10) (by omega) (by omega)
      refine ⟨(text.drop start).take (e - start), c' :: cs', ?_, ?_, ?_⟩
      · simp only [chunkLoop, if_pos hstart, if_neg (by omega : ¬ text.length ≤ start + m), ← he,
          hrec]
      · simp only [List.length_take, List.length_drop]
        omega
      · simp only [List.map_cons, List.flatten_cons]
        have hd : List.drop (m / 10) c' ++ (cs'.map (List.drop (m / 10))).flatten
            = List.drop (m / 10) (c' ++ (cs'.map (List.drop (m / 10))).flatten) :=
          (List.drop_append_of_le_length hlen').symm
        rw [hd, hjoin', List.drop_drop]
        have h1 : e - m / 10 + m / 10 = e := by omega
        rw [h1]
        have h2 : text.drop e = List.drop (e - start) (text.drop start) := by
          rw [List.drop_drop]
          congr 1
          omega
        rw [h2, List.take_append_drop]

/-- C7 — For every text and every `max_chars ≥ 1`, removing the first
`overlap = floor(0.1 * max_chars)` characters of every chunk after the first
and concatenating reconstructs the original text exactly: consecutive chunks
of `_chunk_text` overlap by exactly the fixed fraction of the budget. -/
theorem chunk_reconstruction (text : List Char) (m : Nat) (hm : 1 ≤ m) :
    joinOverlap (chunkText text m) (m / 10) = text := by
  unfold chunkText
  by_cases h : text.length ≤ m
  · simp [h, joinOverlap]
  · push_neg at h
    have hd : m / 10 ≤ m := Nat.div_le_self m 10
    obtain ⟨c, cs, hl, _, hj⟩ :=
      chunkLoop_join text m hm text.length 0 (by omega) (by omega)
    rw [if_neg (by omega), hl]
    simpa [joinOverlap] using hj

/-- Witness for C7 at a concrete split text. -/
theorem chunk_reconstruction_witness :
    joinOverlap (chunkText ("abcdefghijkl").toList 5) (5 / 10) = ("abcdefghijkl").toList :=
  chunk_reconstruction ("abcdefghijkl").toList 5 (by decide)

theorem chunkLoop_halt (text : List Char) (m ov : Nat) :
    ∀ fuel start, text.length ≤ start → chunkLoop text m ov fuel start = [] := by
  intro fuel start h
  cases fuel with
  | zero => simp [chunkLoop]
  | succ fuel => simp only [chunkLoop, if_neg (by omega : ¬ start < text.length)]

theorem chunkLoop_fuel (text : List Char) (m : Nat) (hm : 1 ≤ m) :
    ∀ fuel₁ fuel₂ start, text.length - start ≤ fuel₁ → text.length - start ≤ fuel₂ →
      chunkLoop text m (m / 10) fuel₁ start = chunkLoop text m (m / 10) fuel₂ start := by
  intro fuel₁
  induction fuel₁ with
  | zero =>
    intro fuel₂ start h1 h2
    rw [chunkLoop_halt text m (m / 10) 0 start (by omega),
      chunkLoop_halt text m (m / 10) fuel₂ start (by omega)]
  | succ fuel ih =>
    intro fuel₂ start h1 h2
    by_cases hs : start < text.length
    · obtain ⟨f₂, rfl⟩ : ∃ f, fuel₂ = f + 1 := ⟨fuel₂ - 1, by omega⟩
      by_cases hend : text.length ≤ start + m
      · simp [chunkLoop, hs, hend]
      · have hlow := cutEnd_gt text m start hm
        simp only [chunkLoop, if_pos hs, if_neg hend]
        congr 1
        exact ih f₂ (cutEnd text m start - m / 10) (by omega) (by omega)
    · rw [chunkLoop_halt text m (m / 10) (fuel + 1) start (by omega),
        chunkLoop_halt text m (m / 10) fuel₂ start (by omega)]

/-- C8 — Termination of `_chunk_text` for every `max_chars ≥ 1`
(`max_chars > overlap = floor(0.1 * max_chars)`): `start` strictly increases
on every iteration (`cutEnd_gt`), including iterations where the cut is
moved back to the last space, so the loop performs at most `text.length`
iterations — running it with any fuel of at least `text.length` yields the
same chunks as fuel `text.length`. -/
theorem chunk_terminating (text : List Char) (m : Nat) (hm : 1 ≤ m) :
    ∀ fuel, text.length ≤ fuel →
      chunkLoop text m (m / 10) fuel 0 = chunkLoop text m (m / 10) text.length 0 :=
  fun fuel hf => chunkLoop_fuel text m hm fuel text.length 0 (by omega) (by omega)

/-- Witness for C8: extra fuel does not change the result on a concrete text. -/
theorem chunk_terminating_witness :
    chunkLoop ("abcdefgh").toList 3 (3 / 10) 30 0
      = chunkLoop ("abcdefgh").toList 3 (3 / 10) (("abcdefgh").toList.length) 0 :=
  chunk_terminating ("abcdefgh").toList 3 (by decide) 30 (by decide)

/-! ## Segment filtering and job initialization
(`_filter_valid_segments` knowledge_manager.py 221-225,
`create_file_embedding` 227-252) -/

/-- Python `str.strip()` on a character list: remove leading and trailing
whitespace. -/
def pyStrip (s : List Char) : List Char :=
  ((s.dropWhile Char.isWhitespace).reverse.dropWhile Char.isWhitespace).reverse

/-- One extracted segment, with the two fields the filter reads:
`type` models `s.get('type')` (`none` when the key is absent) and `text`
models `s.get('text', '')`. -/
structure Segment where
  type : Option String
  text : List Char
deriving DecidableEq, Repr

/-- `_filter_valid_segments` (knowledge_manager.py 223): keep the segments
whose stripped text is non-empty (Python truthiness of `text.strip()`) and
whose type is not in the literal list `['Page header', 'Page footer']`. -/
def filterValidSegments (segments : List Segment) : List Segment :=
  segments.filter
    (fun s => decide (pyStrip s.text ≠ [] ∧ s.type ∉ [some "Page header", some "Page footer"]))

/-- The job-initialization slice of `create_file_embedding`
(knowledge_manager.py 238-246): with settings present and segments loaded,
filter the valid segments; if none remain the call fails without creating a
job (`none`), otherwise the job is initialized with
`total_chunks = len(valid_segments)`. -/
def createTotalChunks (segments : List Segment) : Option Nat :=
  let valid := filterValidSegments segments
  if valid.isEmpty then none else some valid.length

/-- C2 counterexample — the code excludes only the literal types
'Page header' and 'Page footer'; a segment whose type is the string "header"
is kept, so the 4-segment input of the claim (one empty text, one type
"header") yields `total_chunks = 3`, not 2. -/
theorem segment_filter_counterexample :
    createTotalChunks
      [{ type := some "text", text := ("hello").toList },
       { type := some "text", text := [] },
       { type := some "header", text := ("world").toList },
       { type := some "text", text := ("next").toList }] = some 3 ∧ (3 : Nat) ≠ 2 := by
  constructor
  · decide
  · decide

/-- The validity predicate of the amended claim, following the spec sentence
with the two excluded type strings made literal: non-empty trimmed text, and
a type that is neither 'Page header' nor 'Page footer'. -/
def isValidSegment (s : Segment) : Bool :=
  pyStrip s.text != [] && s.type != some "Page header" && s.type != some "Page footer"

/-- C2 amended — a segment is included in embedding iff its trimmed text is
non-empty and its type is neither 'Page header' nor 'Page footer' (a type of
exactly "header" or "footer" is not excluded), and when at least one segment
is valid the embedding job is initialized with `total_chunks` equal to the
number of valid segments. -/
theorem segment_filter_valid (segments : List Segment)
    (h : segments.filter isValidSegment ≠ []) :
    filterValidSegments segments = segments.filter isValidSegment ∧
    createTotalChunks segments = some (segments.filter isValidSegment).length := by
  have hf : filterValidSegments segments = segments.filter isValidSegment := by
    unfold filterValidSegments isValidSegment
    congr 1
    funext s
    by_cases h1 : pyStrip s.text = [] <;> by_cases h2 : s.type = some "Page header" <;>
      by_cases h3 : s.type = some "Page footer" <;> simp [h1, h2, h3]
  refine ⟨hf, ?_⟩
  unfold createTotalChunks
  rw [hf]
  simp only [List.isEmpty_iff]
  rw [if_neg h]

/-- Witness for C2 amended: the scenario-E input with the literal type
'Page header' — one empty-text segment and one 'Page header' segment are
excluded from the 4-segment input, giving `total_chunks = 2`. -/
theorem segment_filter_valid_witness :
    createTotalChunks
      [{ type := some "text", text := ("hello").toList },
       { type := some "text", text := [] },
       { type := some "Page header", text := ("world").toList },
       { type := some "text", text := ("next").toList }] = some 2 :=
  ((segment_filter_valid
      [{ type := some "text", text := ("hello").toList },
       { type := some "text", text := [] },
       { type := some "Page header", text := ("world").toList },
       { type := some "text", text := ("next").toList }] (by decide)).2).trans (by decide)

/-! ## Embedding job tracker
(`FileEmbedding` rows, `_update_embedding_progress` knowledge_manager.py
433-447, `_update_embedding_status` 449-463) -/

/-- A `FileEmbedding` database row, with the fields the claims touch.
Statuses are stored as the literal strings of the source:
'processing', 'completed', 'failed', 'cancelled'. -/
structure FileEmbedding where
  file_id : String
  filename : String
  status : String
  total_chunks : Nat
  completed_chunks : Nat
  provider : String
  model_name : String
  error_message : Option String
deriving DecidableEq, Repr

/-- `_update_embedding_progress` (knowledge_manager.py 433-447): overwrite
`completed_chunks` with the given value. -/
def updateEmbeddingProgress (j : FileEmbedding) (completed : Nat) : FileEmbedding :=
  { j with completed_chunks := completed }

/-- `_update_embedding_status` (knowledge_manager.py 449-463): set the
status, keep the previous error message when none is given, and on
`status = 'completed'` also set `completed_chunks = total_chunks`. -/
def updateEmbeddingStatus (j : FileEmbedding) (status : String)
    (errorMessage : Option String) : FileEmbedding :=
  let j1 : FileEmbedding :=
    { j with status := status,
             error_message :=
               match errorMessage with
               | some msg => some msg
               | none => j.error_message }
  if status = "completed" then { j1 with completed_chunks := j1.total_chunks } else j1

/-- The batch start indices `range(0, n, batch_size)` of the background loop
(knowledge_manager.py 305). -/
def batchStarts (n bs : Nat) : List Nat :=
  (List.range ((n + bs - 1) / bs)).map (fun k => k * bs)

/-- The successive values passed to `_update_embedding_progress` by
`_process_embeddings_background` (knowledge_manager.py 364, 375, 408, 419):
the batch that starts at segment index `i` reports
`i + len(segments[i:i+batch_size]) = min (i + bs) n` after its vectors are
stored; a batch whose embedding or store step failed is logged and skipped
(`ok i = false`), reporting nothing. -/
def progressUpdates (n bs : Nat) (ok : Nat → Bool) : List Nat :=
  ((batchStarts n bs).filter ok).map (fun i => min (i + bs) n)

/-- C3 — Over the lifetime of one embedding job, the values written to
`completed_chunks` by the background loop are non-decreasing, never exceed
`total_chunks = n`, and the final `status = 'completed'` transition sets
`completed_chunks = total_chunks` exactly. -/
theorem embedding_progress_monotone (n bs : Nat) (ok : Nat → Bool) (j : FileEmbedding)
    (hbs : 1 ≤ bs) (htot : j.total_chunks = n) :
    List.Pairwise (· ≤ ·) (progressUpdates n bs ok) ∧
    (∀ c ∈ progressUpdates n bs ok, c ≤ n) ∧
    (updateEmbeddingStatus j "completed" none).completed_chunks = n ∧
    (updateEmbeddingStatus j "completed" none).status = "completed" := by
  refine ⟨?_, ?_, ?_, ?_⟩
  · unfold progressUpdates batchStarts
    have h1 : List.Pairwise (· < ·) (List.range ((n + bs - 1) / bs)) :=
      List.pairwise_lt_range _
    have h2 : List.Pairwise (· < ·)
        ((List.range ((n + bs - 1) / bs)).map (fun k => k * bs)) :=
      h1.map _ (fun a b hab => (Nat.mul_lt_mul_right hbs).mpr hab)
    have h3 := h2.filter ok
    exact h3.map _ (fun a b hab => by omega)
  · intro c hc
    unfold progressUpdates at hc
    rcases List.mem_map.mp hc with ⟨i, _, rfl⟩
    omega
  · simp [updateEmbeddingStatus, htot]
  · simp [updateEmbeddingStatus]

/-- Witness for C3 with five segments and batch size two: the reported
values are `[2, 4, 5]`, monotone and bounded by 5, and completion pins
`completed_chunks` to 5. -/
theorem embedding_progress_monotone_witness :
    List.Pairwise (· ≤ ·) (progressUpdates 5 2 (fun _ => true)) ∧
    (4 : Nat) ≤ 5 ∧
    (updateEmbeddingStatus
      { file_id := "f", filename := "f.pdf", status := "processing",
        total_chunks := 5, completed_chunks := 2, provider := "ollama",
        model_name := "bge-m3", error_message := none } "completed" none).completed_chunks = 5 := by
  have h := embedding_progress_monotone 5 2 (fun _ => true)
    { file_id := "f", filename := "f.pdf", status := "processing",
      total_chunks := 5, completed_chunks := 2, provider := "ollama",
      model_name := "bge-m3", error_message := none } (by decide) rfl
  exact ⟨h.1, h.2.1 4 (by decide), h.2.2.1⟩

/-! ## Cancellation of an embedding job
(`cancel_file_embedding` knowledge_manager.py 659-685,
`_check_cancelled_status` 278-288, and the background loop 290-431) -/

/-- The fixed cancellation message written by `cancel_file_embedding`
(knowledge_manager.py 668). -/
def cancelMessage : String := "사용자에 의해 취소됨"

/-- Status of the persisted job row, `none` when the row does not exist. -/
def jobStatus (job : Option FileEmbedding) : Option String :=
  job.map (fun j => j.status)

/-- `cancel_file_embedding` (knowledge_manager.py 659-685) acting on the
job row and on this document's vectors in the (user, provider) collection
(`store`, the list of batch start indices whose vectors were written):
no row or a status other than 'processing' returns `false` and changes
nothing; otherwise the status becomes 'cancelled' with the fixed message and
`_delete_file_chunks_from_chroma` removes every vector of the document. -/
def cancelFileEmbedding (job : Option FileEmbedding) (store : List Nat) :
    Bool × Option FileEmbedding × List Nat :=
  match job with
  | none => (false, none, store)
  | some j =>
    if j.status = "processing" then
      (true, some { j with status := "cancelled", error_message := some cancelMessage }, [])
    else (false, some j, store)

/-- Position of the background loop of `_process_embeddings_background`
between its await points: `idle` = at the top of a batch iteration, about to
run `_check_cancelled_status`; `inflight` = the check passed and the batch's
embedding call has been awaited, its vectors not yet written; `halted` = the
loop returned early after seeing 'cancelled'; `done` = the loop finished all
batches and wrote the terminal status. -/
inductive LoopPhase
  | idle
  | inflight
  | halted
  | done
deriving DecidableEq, Repr

/-- Joint state of one document's embedding job, its vectors, and the
background loop over `n` segments with batch size `bs`. -/
structure EmbState where
  job : Option FileEmbedding
  store : List Nat
  pos : Nat
  n : Nat
  bs : Nat
  phase : LoopPhase
deriving DecidableEq, Repr

/-- The atomic steps that can interleave on this state: the loop's
pre-batch cancellation check (knowledge_manager.py 307-309), the completion
of one batch (the awaited embed returns, `collection.add` stores its vectors
and the progress update runs, 314-420), the failure of one batch (logged and
skipped, 422-423), a concurrent `cancel_file_embedding` request, and the
loop's terminal `_update_embedding_status('completed')` (427). -/
inductive EmbAction
  | check
  | finishBatch
  | failBatch
  | cancel
  | complete
deriving DecidableEq, Repr

/-- Effect of one atomic step.  Steps that are not enabled in the current
phase leave the state unchanged. -/
def applyAction (s : EmbState) : EmbAction → EmbState
  | .check =>
    if s.phase = .idle then
      if s.pos < s.n then
        if jobStatus s.job = some "cancelled" then { s with phase := .halted }
        else { s with phase := .inflight }
      else s
    else s
  | .finishBatch =>
    if s.phase = .inflight then
      { s with store := s.store ++ [s.pos],
               job := s.job.map (fun j => updateEmbeddingProgress j (min (s.pos + s.bs) s.n)),
               pos := s.pos + s.bs,
               phase := .idle }
    else s
  | .failBatch =>
    if s.phase = .inflight then { s with pos := s.pos + s.bs, phase := .idle } else s
  | .cancel =>
    let r := cancelFileEmbedding s.job s.store
    { s with job := r.2.1, store := r.2.2 }
  | .complete =>
    if s.phase = .idle ∧ s.n ≤ s.pos then
      { s with job := s.job.map (fun j => updateEmbeddingStatus j "completed" none),
               phase := .done }
    else s

/-- Run a sequence of interleaved atomic steps. -/
def runActions (s : EmbState) (l : List EmbAction) : EmbState :=
  l.foldl applyAction s

/-- Initial state of the C4 counterexample: a five-batch local-provider job
(100 valid segments, ollama batch size 20), already past its first batch. -/
def cancelRaceStart : EmbState :=
  { job := some
      { file_id := "doc", filename := "doc.pdf", status := "processing",
        total_chunks := 100, completed_chunks := 0, provider := "ollama",
        model_name := "bge-m3", error_message := none },
    store := [], pos := 0, n := 100, bs := 20, phase := .idle }

/-- The interleaving that refutes the claim: the second batch's embedding
call is in flight when the cancel request lands. -/
def cancelRaceTrace : List EmbAction :=
  [.check, .finishBatch, .check, .cancel, .finishBatch, .check]

/-- C4 counterexample — cancel arrives while one batch is in flight: the
cancel request sets 'cancelled' and deletes the vectors written so far, but
the in-flight batch then stores its vectors after that deletion.  The loop
halts at the next pre-batch check, yet vectors of the cancelled document
remain in the store afterward — refuting "no vectors for that document
remain in the store afterward". -/
theorem cancel_embedding_counterexample :
    jobStatus (runActions cancelRaceStart cancelRaceTrace).job = some "cancelled" ∧
    (runActions cancelRaceStart cancelRaceTrace).phase = .halted ∧
    (runActions cancelRaceStart cancelRaceTrace).store = [20] := by
  decide

/-- Number of vector writes that can still happen once the job status is
'cancelled': one when a batch is in flight, none otherwise. -/
def inflightBonus (s : EmbState) : Nat :=
  if s.phase = .inflight then 1 else 0

/-- Invariant used for the amended C4: the job was cancelled, or the loop
already finished after the status was overwritten by its terminal
'completed' write. -/
def cancelledOrDone (s : EmbState) : Prop :=
  jobStatus s.job = some "cancelled" ∨
    (jobStatus s.job = some "completed" ∧ s.phase = .done)

theorem applyAction_cancelled (s : EmbState) (a : EmbAction) (h : cancelledOrDone s) :
    cancelledOrDone (applyAction s a) ∧
    (applyAction s a).store.length + inflightBonus (applyAction s a)
      ≤ s.store.length + inflightBonus s := by
  rcases h with hc | ⟨hc, hphase⟩
  · obtain ⟨j, hj, hjs⟩ : ∃ j, s.job = some j ∧ j.status = "cancelled" := by
      cases hjob : s.job with
      | none => rw [hjob] at hc; simp [jobStatus] at hc
      | some j =>
        rw [hjob] at hc
        simp only [jobStatus, Option.map_some', Option.some.injEq] at hc
        exact ⟨j, rfl, hc⟩
    cases a with
    | check =>
      simp only [applyAction]
      by_cases h1 : s.phase = .idle
      · rw [if_pos h1]
        by_cases h2 : s.pos < s.n
        · rw [if_pos h2, if_pos hc]
          exact ⟨Or.inl hc, by simp [inflightBonus, h1]⟩
        · rw [if_neg h2]
          exact ⟨Or.inl hc, le_refl _⟩
      · rw [if_neg h1]
        exact ⟨Or.inl hc, le_refl _⟩
    | finishBatch =>
      simp only [applyAction]
      split_ifs with h1
      · refine ⟨Or.inl ?_, ?_⟩
        · simp [jobStatus, hj, updateEmbeddingProgress, hjs]
        · simp [inflightBonus, h1]
      · exact ⟨Or.inl hc, le_refl _⟩
    | failBatch =>
      simp only [applyAction]
      split_ifs with h1
      · exact ⟨Or.inl hc, by simp [inflightBonus, h1]⟩
      · exact ⟨Or.inl hc, le_refl _⟩
    | cancel =>
      simp only [applyAction, cancelFileEmbedding, hj, hjs]
      refine ⟨Or.inl ?_, ?_⟩
      · simp [jobStatus, hjs]
      · simp [inflightBonus]
    | complete =>
      simp only [applyAction]
      split_ifs with h1
      · refine ⟨Or.inr ⟨?_, rfl⟩, ?_⟩
        · simp [jobStatus, hj, updateEmbeddingStatus]
        · simp [inflightBonus, h1.1]
      · exact ⟨Or.inl hc, le_refl _⟩
  · obtain ⟨j, hj, hjs⟩ : ∃ j, s.job = some j ∧ j.status = "completed" := by
      cases hjob : s.job with
      | none => rw [hjob] at hc; simp [jobStatus] at hc
      | some j =>
        rw [hjob] at hc
        simp only [jobStatus, Option.map_some', Option.some.injEq] at hc
        exact ⟨j, rfl, hc⟩
    cases a with
    | check =>
      simp only [applyAction]
      rw [if_neg (by simp [hphase])]
      exact ⟨Or.inr ⟨hc, hphase⟩, le_refl _⟩
    | finishBatch =>
      simp only [applyAction]
      rw [if_neg (by simp [hphase])]
      exact ⟨Or.inr ⟨hc, hphase⟩, le_refl _⟩
    | failBatch =>
      simp only [applyAction]
      rw [if_neg (by simp [hphase])]
      exact ⟨Or.inr ⟨hc, hphase⟩, le_refl _⟩
    | cancel =>
      simp only [applyAction, cancelFileEmbedding, hj, hjs]
      rw [if_neg (by simp)]
      exact ⟨Or.inr ⟨by simpa [jobStatus, hj] using hc, hphase⟩, le_refl _⟩
    | complete =>
      simp only [applyAction]
      rw [if_neg (by simp [hphase])]
      exact ⟨Or.inr ⟨hc, hphase⟩, le_refl _⟩

theorem runActions_cancelled (l : List EmbAction) :
    ∀ s : EmbState, cancelledOrDone s →
      (runActions s l).store.length + inflightBonus (runActions s l)
        ≤ s.store.length + inflightBonus s := by
  induction l with
  | nil => intro s _; simp [runActions]
  | cons a l ih =>
    intro s h
    have ha := applyAction_cancelled s a h
    have hl := ih (applyAction s a) ha.1
    simp only [runActions, List.foldl_cons] at hl ⊢
    omega

/-- C4 amended — `cancel(user, document)` succeeds only from
`status = 'processing'`: for any other status (or a missing row) it returns
failure and changes nothing; on success it sets `status = 'cancelled'` with
the fixed message and deletes the document's vectors, and once the persisted
status is 'cancelled' the background loop starts no further batch (its
pre-batch check halts it) — but the single batch already in flight at
cancellation still writes its vectors after the deletion, so at most that
one batch's vectors remain in the store afterward. -/
theorem cancel_embedding_spec (j : FileEmbedding) (store : List Nat) (s : EmbState)
    (hs : jobStatus s.job = some "cancelled") :
    (j.status ≠ "processing" → cancelFileEmbedding (some j) store = (false, some j, store)) ∧
    (j.status = "processing" → cancelFileEmbedding (some j) store =
      (true, some { j with status := "cancelled", error_message := some cancelMessage }, [])) ∧
    ∀ l, (runActions s l).store.length ≤ s.store.length + inflightBonus s := by
  refine ⟨?_, ?_, fun l => ?_⟩
  · intro h; simp [cancelFileEmbedding, h]
  · intro h; simp [cancelFileEmbedding, h]
  · have := runActions_cancelled l s (Or.inl hs)
    omega

/-- Witness for the amended C4: a concrete processing job is cancelled with
the fixed message and emptied store, and from a concrete cancelled state at
a batch boundary no further vectors are ever written. -/
theorem cancel_embedding_spec_witness :
    cancelFileEmbedding
      (some { file_id := "doc", filename := "doc.pdf", status := "processing",
              total_chunks := 100, completed_chunks := 20, provider := "ollama",
              model_name := "bge-m3", error_message := none }) [0]
      = (true,
         some { file_id := "doc", filename := "doc.pdf", status := "cancelled",
                total_chunks := 100, completed_chunks := 20, provider := "ollama",
                model_name := "bge-m3", error_message := some cancelMessage }, []) ∧
    (runActions
      { job := some { file_id := "doc", filename := "doc.pdf", status := "cancelled",
                      total_chunks := 100, completed_chunks := 20, provider := "ollama",
                      model_name := "bge-m3", error_message := some cancelMessage },
        store := [0], pos := 20, n := 100, bs := 20, phase := .idle }
      [.check, .finishBatch, .check]).store.length ≤ 1 := by
  have h := cancel_embedding_spec
    { file_id := "doc", filename := "doc.pdf", status := "processing",
      total_chunks := 100, completed_chunks := 20, provider := "ollama",
      model_name := "bge-m3", error_message := none } [0]
    { job := some { file_id := "doc", filename := "doc.pdf", status := "cancelled",
                    total_chunks := 100, completed_chunks := 20, provider := "ollama",
                    model_name := "bge-m3", error_message := some cancelMessage },
      store := [0], pos := 20, n := 100, bs := 20, phase := .idle }
    (by decide)
  refine ⟨h.2.1 rfl, ?_⟩
  have h3 := h.2.2 [.check, .finishBatch, .check]
  simpa [inflightBonus] using h3

/-! ## Consistency checker and similarity search
(`_check_embedding_consistency` knowledge_manager.py 694-735,
`search_similar_documents` 808-899) -/

/-- Outcome of `search_similar_documents`, at the level the claim speaks:
`empty` is the `[]` return, `warning` is the single structured
`embedding_inconsistency_warning` element, and `hits p m` stands for ranked
results from the provider-scoped collection with the query embedded by
`(p, m)` (the external vector-store query itself is abstracted away). -/
inductive SearchOutcome
  | empty
  | warning (inconsistentFiles : List FileEmbedding) (currentModel : String)
  | hits (provider model : String)
deriving DecidableEq, Repr

/-- `_check_embedding_consistency` for the all-files case
(knowledge_manager.py 713-732): the user's jobs with `status = 'completed'`
whose provider or model differs from the current settings. -/
def checkEmbeddingConsistency (jobs : List FileEmbedding) (provider model : String) :
    List FileEmbedding :=
  jobs.filter (fun j => j.status == "completed" && (j.provider != provider || j.model_name != model))

/-- The provider/model resolution logic of `search_similar_documents`
(knowledge_manager.py 808-899) over the user's job rows and embedding
settings.  With a `file_id`: a completed job for that file supplies its own
provider/model, any other case (row missing or not completed) returns `[]`
(lines 822-824).  Without a `file_id`: missing settings return `[]`; the
consistency check runs, a non-empty result returns the warning element
(lines 836-845); otherwise the query is embedded with the global settings.
Downstream empty-result conditions (failed query embedding, missing
collection) are abstracted into the `hits` outcome. -/
def searchSimilarDocuments (jobs : List FileEmbedding) (settings : Option (String × String))
    (fileId : Option String) : SearchOutcome :=
  match fileId with
  | some fid =>
    match jobs.find? (fun j => j.file_id == fid) with
    | some j => if j.status = "completed" then .hits j.provider j.model_name else .empty
    | none => .empty
  | none =>
    match settings with
    | none => .empty
    | some (p, m) =>
      let inconsistent := checkEmbeddingConsistency jobs p m
      if inconsistent.isEmpty then .hits p m
      else .warning inconsistent (p ++ ":" ++ m)

/-- C5 counterexample — a file-scoped search whose job exists but is not
`completed` returns `[]` without ever falling back to the user's global
settings and without running the consistency check, even though the
consistency check over the same state is non-empty and the claim's
"otherwise" case would demand the warning result. -/
theorem search_counterexample :
    searchSimilarDocuments
      [{ file_id := "A", filename := "a.pdf", status := "processing",
         total_chunks := 4, completed_chunks := 1, provider := "ollama",
         model_name := "modelX", error_message := none },
       { file_id := "B", filename := "b.pdf", status := "completed",
         total_chunks := 3, completed_chunks := 3, provider := "ollama",
         model_name := "modelX", error_message := none }]
      (some ("ollama", "modelY")) (some "A") = .empty ∧
    checkEmbeddingConsistency
      [{ file_id := "A", filename := "a.pdf", status := "processing",
         total_chunks := 4, completed_chunks := 1, provider := "ollama",
         model_name := "modelX", error_message := none },
       { file_id := "B", filename := "b.pdf", status := "completed",
         total_chunks := 3, completed_chunks := 3, provider := "ollama",
         model_name := "modelX", error_message := none }]
      "ollama" "modelY" ≠ [] := by
  decide

/-- C5 amended — with a `document_id` whose job row is found: a completed
job supplies its own recorded provider/model, a non-completed one yields the
empty result (no fallback to global settings); with no row found the result
is empty; without a `document_id` the global settings are used, and the
consistency check runs there: if every completed job matches the current
settings the search proceeds with them, and if some completed job differs
the call returns the single structured warning instead of ranked hits. -/
theorem search_model_resolution (jobs : List FileEmbedding) (p m fid : String)
    (j : FileEmbedding) :
    (jobs.find? (fun x => x.file_id == fid) = some j → j.status = "completed" →
      searchSimilarDocuments jobs (some (p, m)) (some fid) = .hits j.provider j.model_name) ∧
    (jobs.find? (fun x => x.file_id == fid) = some j → j.status ≠ "completed" →
      searchSimilarDocuments jobs (some (p, m)) (some fid) = .empty) ∧
    (jobs.find? (fun x => x.file_id == fid) = none →
      searchSimilarDocuments jobs (some (p, m)) (some fid) = .empty) ∧
    ((∀ x ∈ jobs, x.status = "completed" → x.provider = p ∧ x.model_name = m) →
      searchSimilarDocuments jobs (some (p, m)) none = .hits p m) ∧
    ((∃ x ∈ jobs, x.status = "completed" ∧ (x.provider ≠ p ∨ x.model_name ≠ m)) →
      searchSimilarDocuments jobs (some (p, m)) none =
        .warning (checkEmbeddingConsistency jobs p m) (p ++ ":" ++ m)) := by
  refine ⟨?_, ?_, ?_, ?_, ?_⟩
  · intro hf hs
    simp [searchSimilarDocuments, hf, hs]
  · intro hf hs
    simp only [searchSimilarDocuments, hf]
    rw [if_neg hs]
  · intro hf
    simp [searchSimilarDocuments, hf]
  · intro hall
    have hnil : checkEmbeddingConsistency jobs p m = [] := by
      rw [checkEmbeddingConsistency, List.filter_eq_nil_iff]
      intro x hx
      by_cases hs : x.status = "completed"
      · have hm := hall x hx hs
        simp [hs, hm.1, hm.2]
      · simp [hs]
    simp [searchSimilarDocuments, hnil]
  · rintro ⟨x, hx, hcomp, hdiff⟩
    have hmem : x ∈ checkEmbeddingConsistency jobs p m := by
      apply List.mem_filter.mpr
      refine ⟨hx, ?_⟩
      rcases hdiff with hd | hd <;> simp [hcomp, hd]
    have hne : (checkEmbeddingConsistency jobs p m).isEmpty = false := by
      rcases hl : checkEmbeddingConsistency jobs p m with _ | ⟨y, ys⟩
      · rw [hl] at hmem; simp at hmem
      · rfl
    simp [searchSimilarDocuments, hne]

/-- Witness for the amended C5 (scenario D): after the user switches to
modelY, a global search over a document embedded with modelX returns the
structured warning listing that document, not ranked hits. -/
theorem search_model_resolution_witness :
    searchSimilarDocuments
      [{ file_id := "A", filename := "a.pdf", status := "completed",
         total_chunks := 3, completed_chunks := 3, provider := "ollama",
         model_name := "modelX", error_message := none }]
      (some ("ollama", "modelY")) none
      = .warning
          [{ file_id := "A", filename := "a.pdf", status := "completed",
             total_chunks := 3, completed_chunks := 3, provider := "ollama",
             model_name := "modelX", error_message := none }]
          ("ollama" ++ ":" ++ "modelY") := by
  have h := (search_model_resolution
      [{ file_id := "A", filename := "a.pdf", status := "completed",
         total_chunks := 3, completed_chunks := 3, provider := "ollama",
         model_name := "modelX", error_message := none }]
      "ollama" "modelY" "A"
      { file_id := "A", filename := "a.pdf", status := "completed",
        total_chunks := 3, completed_chunks := 3, provider := "ollama",
        model_name := "modelX", error_message := none }).2.2.2.2
    ⟨{ file_id := "A", filename := "a.pdf", status := "completed",
       total_chunks := 3, completed_chunks := 3, provider := "ollama",
       model_name := "modelX", error_message := none },
     by decide, rfl, Or.inr (by decide)⟩
  exact h.trans (by decide)

/-! ## Upload and segmentation route
(`process_segments` file_routes.py 345-538, `retry_file` 625-657) -/

/-- The statuses for which `process_segments` allows re-processing of an
existing row (file_routes.py 372) — every status except 'cancelled'. -/
def reprocessableStatuses : List String :=
  ["failed", "error", "completed", "waiting", "processing"]

/-- The document-record effect of the upload endpoint `process_segments`
(file_routes.py 345-412) on the table of (file id, status) rows: an existing
row with the same id is rejected with a 400 (`none`) unless its status is
reprocessable, in which case it is deleted; then a fresh row is inserted
with `status = "processing"` (line 400).  Segmentation then runs inline in
the request handler and ends by setting 'completed' (line 501) or 'failed'
(line 534); no step of the handler reads any other document's status. -/
def processSegmentsRecord (docs : List (String × String)) (fileId : String) :
    Option (List (String × String)) :=
  match docs.find? (fun d => d.1 == fileId) with
  | some d =>
    if d.2 ∈ reprocessableStatuses then
      some ((docs.filter (fun e => e.1 != fileId)) ++ [(fileId, "processing")])
    else none
  | none => some (docs ++ [(fileId, "processing")])

/-- C1 counterexample — uploading a second document while the first is
`processing` records the second as `processing` too, not `waiting`: there is
no system-wide single-flight admission in the upload path. -/
theorem upload_counterexample :
    processSegmentsRecord [("docA", "processing")] "docB"
      = some [("docA", "processing"), ("docB", "processing")] ∧
    List.lookup "docB" [("docA", "processing"), ("docB", "processing")]
      = some "processing" ∧
    "processing" ≠ "waiting" := by
  decide

/-- C1 amended — a newly uploaded document is recorded immediately with
`status = "processing"` (never `waiting`), regardless of the statuses of all
other documents: the upload handler performs no single-flight admission
check, so a document uploaded while another is `processing` is itself
recorded as `processing`. -/
theorem upload_records_processing (docs : List (String × String)) (fileId : String)
    (hfresh : docs.find? (fun d => d.1 == fileId) = none) :
    processSegmentsRecord docs fileId = some (docs ++ [(fileId, "processing")]) := by
  simp [processSegmentsRecord, hfresh]

/-- Witness for the amended C1: a fresh upload lands as `processing` next to
a document that is already `processing`. -/
theorem upload_records_processing_witness :
    processSegmentsRecord [("docA", "processing")] "docC"
      = some [("docA", "processing"), ("docC", "processing")] :=
  upload_records_processing [("docA", "processing")] "docC" (by decide)

/-- A `PDFFile` row, with the fields `retry_file` touches. -/
structure PDFFileRec where
  filename : String
  status : String
  error_message : Option String
  processed_at : Option String
deriving DecidableEq, Repr

/-- Result of the retry endpoint: 404 when the row is missing, 400 when the
status does not allow a retry, success with the updated row otherwise. -/
inductive RetryResult
  | notFound
  | invalidStatus
  | ok (f : PDFFileRec)
deriving DecidableEq, Repr

/-- `retry_file` (file_routes.py 625-657): 404 for a missing row; 400 unless
`status ∈ ['error', 'failed']`; on success the status becomes 'waiting' and
`error_message` and `processed_at` are cleared.  The endpoint never checks
whether the original file still exists on disk. -/
def retryFile (f : Option PDFFileRec) : RetryResult :=
  match f with
  | none => .notFound
  | some f =>
    if f.status ∈ ["error", "failed"] then
      .ok { f with status := "waiting", error_message := none, processed_at := none }
    else .invalidStatus

/-- C9 counterexample — a `completed` document cannot be retried: the code
answers 400 where the claim demands success (and for no input does the code
consult the disk). -/
theorem retry_counterexample :
    retryFile (some { filename := "a.pdf", status := "completed",
                      error_message := none, processed_at := some "2024-08-22" })
      = .invalidStatus ∧
    RetryResult.invalidStatus
      ≠ .ok { filename := "a.pdf", status := "waiting",
              error_message := none, processed_at := none } := by
  decide

/-- C9 amended — `retry_file` succeeds exactly when the document's status is
in {error, failed}, with no check that the original file still exists on
disk; on success it sets `status = waiting` and clears the error message and
processed timestamp, and for any other status it returns an error and
leaves the document unchanged. -/
theorem retry_characterization (f : PDFFileRec) :
    (f.status ∈ ["error", "failed"] →
      retryFile (some f)
        = .ok { f with status := "waiting", error_message := none, processed_at := none }) ∧
    (f.status ∉ ["error", "failed"] → retryFile (some f) = .invalidStatus) ∧
    retryFile none = .notFound := by
  refine ⟨?_, ?_, rfl⟩
  · intro h
    simp [retryFile, h]
  · intro h
    simp [retryFile, h]

/-- Witness for the amended C9: a failed document re-enters the queue with
its error and processed fields cleared. -/
theorem retry_characterization_witness :
    retryFile (some { filename := "a.pdf", status := "failed",
                      error_message := some "boom", processed_at := some "2024-08-22" })
      = .ok { filename := "a.pdf", status := "waiting",
              error_message := none, processed_at := none } :=
  (retry_characterization
    { filename := "a.pdf", status := "failed",
      error_message := some "boom", processed_at := some "2024-08-22" }).1 (by decide)

/-! ## Single-text query embedding through the local provider
(`_generate_embedding` knowledge_manager.py 485-497,
`_generate_ollama_batch_embeddings` 560-619) -/

/-- `_generate_ollama_batch_embeddings` (knowledge_manager.py 560-619) with
the per-chunk vector returned by the Ollama HTTP embed endpoint abstracted
as `embed`: every input text is chunked by `_chunk_text` under the model's
character budget, all chunks are embedded (the source batches the HTTP calls
in groups of 20 and concatenates the per-batch vector lists, which for a
deterministic per-chunk embedding is one vector per chunk in order), and the
function returns `(chunk embeddings, chunk-to-text mapping, chunk texts)`. -/
def generateOllamaBatchEmbeddings (embed : List Char → List Int) (maxChars : Nat)
    (texts : List (List Char)) : List (List Int) × List Nat × List (List Char) :=
  let perText := texts.map (fun t => chunkText t maxChars)
  let allChunks := perText.flatten
  let chunkMapping := (perText.enum.map (fun q => List.replicate q.2.length q.1)).flatten
  (allChunks.map embed, chunkMapping, allChunks)

/-- `_generate_embedding` (knowledge_manager.py 485-497) on the local
provider: call the batch path on the singleton `[text]` and, in the
chunked-tuple branch, return `embeddings[0]` — the first chunk's vector —
or `none` when there are no embeddings. -/
def generateEmbedding (embed : List Char → List Int) (maxChars : Nat)
    (text : List Char) : Option (List Int) :=
  (generateOllamaBatchEmbeddings embed maxChars [text]).1.head?

/-- C10 — For a single-text embedding through the local provider, when the
text is chunked into `c :: cs` the batch path computes one embedding per
chunk, and `_generate_embedding` returns exactly the first chunk's
embedding; the embeddings of the remaining chunks are discarded. -/
theorem query_embedding_first_chunk (embed : List Char → List Int) (maxChars : Nat)
    (text c : List Char) (cs : List (List Char)) (h : chunkText text maxChars = c :: cs) :
    (generateOllamaBatchEmbeddings embed maxChars [text]).1 = embed c :: cs.map embed ∧
    generateEmbedding embed maxChars text = some (embed c) := by
  constructor
  · simp [generateOllamaBatchEmbeddings, h]
  · simp [generateEmbedding, generateOllamaBatchEmbeddings, h]

/-- Witness for C10: a 25-character spaceless text with a 10-character
budget splits into three chunks, and the returned query embedding is that of
the first chunk only. -/
theorem query_embedding_first_chunk_witness :
    generateEmbedding (fun l => [(l.length : Int)]) 10
      ("abcdefghijklmnopqrstuvwxy").toList = some [(10 : Int)] := by
  have h := (query_embedding_first_chunk (fun l => [(l.length : Int)]) 10
      ("abcdefghijklmnopqrstuvwxy").toList ("abcdefghij").toList
      [("jklmnopqrs").toList, ("stuvwxy").toList] (by decide)).2
  exact h.trans (by decide)

end Dorea
